import Mathlib

/-!
Verification of the jaffle-shop dlt pipeline (src/pipeline.py) against its
natural-language specification.

The pipeline's extraction core is a page-number pagination loop, repeated
verbatim for each resource (customers, orders, products) in two variants:

* `jaffle_shop_source_naive` (src/pipeline.py lines 18-81): each resource
  fetches pages starting at page 1 and yields records one at a time.
* `jaffle_shop_source_optimized` (src/pipeline.py lines 84-171): the same
  loop, but each resource yields the whole page (record list) at once.

Both loops are: `page = 1; while True: fetch page; if not data["data"]:
break; yield ...; page += 1; if page > data.get("total_pages", 1): break`.

We embed the loop as a function of the HTTP response sequence (a map from
page number to parsed response), with explicit fuel since the Python loop
need not terminate against an adversarial response stream.  Records are
modelled as opaque naturals.
-/

/-- A parsed JSON page response.  `data` models `data.get("data")` with a
missing/empty field collapsed to `[]` (both are falsy in the Python check
`if not data.get("data")`); `total_pages` models the optional
`total_pages` field. -/
structure Response where
  data : List Nat
  total_pages : Option Nat
deriving DecidableEq, Repr

/-- `data.get("total_pages", 1)` in src/pipeline.py lines 38, 58, 78, 112,
140, 168: the declared page count, defaulting to 1 when absent. -/
def Response.totalPages (r : Response) : Nat :=
  r.total_pages.getD 1

/-- The page numbers fetched, in order, by one run of the shared pagination
loop (src/pipeline.py lines 25-39 and 100-113), starting at `page`.  Every
iteration performs one `client.get` for the current page; the loop ends
after fetching a page whose record set is empty, or whose declared
total-pages is below the incremented page number. -/
def fetchedPages (resp : Nat → Response) : Nat → Nat → List Nat
  | 0, _ => []
  | fuel + 1, page =>
    let d := resp page
    if d.data.isEmpty then [page]
    else if page + 1 > d.totalPages then [page]
    else page :: fetchedPages resp fuel (page + 1)

/-- Body of each `@dlt.resource` generator in `jaffle_shop_source_optimized`
(src/pipeline.py lines 100-113; `get_orders` and `get_products` are
verbatim copies with another endpoint, which the abstract response map
`resp` covers): yields entire pages. -/
def extractOptimized (resp : Nat → Response) : Nat → Nat → List (List Nat)
  | 0, _ => []
  | fuel + 1, page =>
    let d := resp page
    if d.data.isEmpty then []
    else
      d.data ::
        (if page + 1 > d.totalPages then []
         else extractOptimized resp fuel (page + 1))

/-- Body of each `@dlt.resource` generator in `jaffle_shop_source_naive`
(src/pipeline.py lines 25-39): same loop, but yields the records of each
page one at a time (`for item in data["data"]: yield item`). -/
def extractNaive (resp : Nat → Response) : Nat → Nat → List Nat
  | 0, _ => []
  | fuel + 1, page =>
    let d := resp page
    if d.data.isEmpty then []
    else
      d.data ++
        (if page + 1 > d.totalPages then []
         else extractNaive resp fuel (page + 1))

/-- Number of outbound `client.get` calls made by one run of the loop from
`page`: exactly one per iteration (src/pipeline.py lines 102, 27). -/
def networkCalls (resp : Nat → Response) : Nat → Nat → Nat
  | 0, _ => 0
  | fuel + 1, page =>
    let d := resp page
    if d.data.isEmpty then 1
    else if page + 1 > d.totalPages then 1
    else 1 + networkCalls resp fuel (page + 1)

/-- The loop's stopping condition at page `p`: the fetched record set is
empty (`if not data.get("data"): break`) or the incremented page number
exceeds the declared total (`page += 1; if page > data.get("total_pages",
1): break`). -/
def stopsAt (resp : Nat → Response) (p : Nat) : Prop :=
  (resp p).data.isEmpty = true ∨ p + 1 > (resp p).totalPages

instance (resp : Nat → Response) (p : Nat) : Decidable (stopsAt resp p) := by
  unfold stopsAt; infer_instance

/-- Synthetic resource of spec section 8: `K` full pages of size `P`, then
one partial page of `M` records (`0 ≤ M < P`), with every response
declaring the true page count. -/
def syntheticResp (K P M : Nat) : Nat → Response := fun page =>
  let total := K + (if M = 0 then 0 else 1)
  if page ≤ K then
    { data := (List.range P).map (fun i => (page - 1) * P + i),
      total_pages := some total }
  else if page = K + 1 then
    { data := (List.range M).map (fun i => K * P + i),
      total_pages := some total }
  else
    { data := [], total_pages := some total }

/-- Concrete two-page response stream (spec section 8's concrete scenario):
page 1 holds two records, page 2 one record, total-pages 2. -/
def resp0 : Nat → Response := fun page =>
  if page = 1 then { data := [10, 11], total_pages := some 2 }
  else if page = 2 then { data := [12], total_pages := some 2 }
  else { data := [], total_pages := some 2 }

/-- Variant of `resp0` that differs from it only on pages the loop never
fetches (pages 3 and beyond). -/
def resp0' : Nat → Response := fun page =>
  if page ≤ 2 then resp0 page
  else { data := [99], total_pages := some 9 }

/-- Response stream whose first page has records but no `total_pages`
field; later pages exist but must never be fetched. -/
def respNoTotal : Nat → Response := fun page =>
  if page = 1 then { data := [7, 8], total_pages := none }
  else { data := [9], total_pages := some 5 }

/-- The report printed by `run_performance_comparison` (src/pipeline.py
lines 173-260): the load info of the two pipeline runs (abstracted to a
number) plus the outcome of the final duckdb verification step. -/
structure ComparisonReport where
  naiveInfo : Nat
  optimizedInfo : Nat
  verificationError : Option String
deriving DecidableEq, Repr

/-- `run_performance_comparison` (src/pipeline.py lines 173-260), embedded
over abstract step outcomes: `naiveRun` and `optimizedRun` stand for the
two `pipeline.run` calls (lines 188 and 205), which are not wrapped in any
`try/except`, so an exception from either one propagates to the caller;
`verification` stands for the duckdb data check (lines 234-260), the only
step inside a `try/except` — its exception is caught and printed as
`Could not verify data` (lines 259-260). -/
def run_performance_comparison (naiveRun optimizedRun : Except String Nat)
    (verification : Except String Unit) : Except String ComparisonReport :=
  match naiveRun with
  | .error e => .error e
  | .ok infoNaive =>
    match optimizedRun with
    | .error e => .error e
    | .ok infoOptimized =>
      .ok { naiveInfo := infoNaive
            optimizedInfo := infoOptimized
            verificationError :=
              match verification with
              | .ok _ => none
              | .error e => some e }

/-- Modelled from the spec: sections 4.3 and 4.4's `IncrementalCursorTracker`
and `RecordFilter` are absent from src/pipeline.py (the demo extracts with
`write_disposition="replace"` and no incremental cursor), so the tracker
state is embedded from the spec's words: the last persisted lower bound
plus the current run's running maximum of the cursor field. -/
structure IncrementalCursorTracker (V : Type) where
  lastPersisted : Option V
  runningMax : Option V
deriving DecidableEq, Repr

/-- Modelled from the spec: running-maximum update; `none` means no cursor
value has been observed yet in this run. -/
def optMax {V : Type} [LinearOrder V] (acc : Option V) (v : V) : Option V :=
  some (match acc with
    | none => v
    | some m => max m v)

/-- Modelled from the spec: `observe` updates the in-memory running maximum
for the resource's cursor field (section 4.3). -/
def IncrementalCursorTracker.observe {V : Type} [LinearOrder V]
    (t : IncrementalCursorTracker V) (v : V) : IncrementalCursorTracker V :=
  { t with runningMax := optMax t.runningMax v }

/-- Modelled from the spec: a record rejected by the `RecordFilter` is
excluded from the tracker's `observe` call (section 4.4); a kept record
lacking the cursor field does not advance the tracker but is still passed
downstream (section 4.3). -/
def IncrementalCursorTracker.observeRecord {R V : Type} [LinearOrder V]
    (keep : R → Bool) (cursorOf : R → Option V)
    (t : IncrementalCursorTracker V) (r : R) : IncrementalCursorTracker V :=
  if keep r then
    match cursorOf r with
    | some v => t.observe v
    | none => t
  else t

/-- Modelled from the spec: one run's worth of `observe` calls, applied to
the extracted records in order. -/
def IncrementalCursorTracker.observeRun {R V : Type} [LinearOrder V]
    (keep : R → Bool) (cursorOf : R → Option V)
    (t : IncrementalCursorTracker V) (records : List R) :
    IncrementalCursorTracker V :=
  records.foldl (IncrementalCursorTracker.observeRecord keep cursorOf) t

/-- Modelled from the spec: `commit` persists the running maximum as the
new lower bound (section 4.3); when nothing was observed the old bound is
kept. -/
def IncrementalCursorTracker.commit {V : Type}
    (t : IncrementalCursorTracker V) : IncrementalCursorTracker V :=
  { t with
    lastPersisted :=
      match t.runningMax with
      | some m => some m
      | none => t.lastPersisted }

/-- Modelled from the spec: `currentLowerBound` is the persisted value,
defaulting to the resource's configured initial value when no prior run
exists (section 4.3). -/
def IncrementalCursorTracker.currentLowerBound {V : Type}
    (t : IncrementalCursorTracker V) (initial : Option V) : Option V :=
  match t.lastPersisted with
  | some v => some v
  | none => initial

/-- The cursor values of the records kept by the filter, in record order:
the reference sequence the tracker is compared against. -/
def keptCursorValues {R V : Type} (keep : R → Bool)
    (cursorOf : R → Option V) (records : List R) : List V :=
  (records.filter keep).filterMap cursorOf

/-- The six environment keys assigned at module import
(src/pipeline.py lines 10-15). -/
def perfConfigKeys : List String :=
  ["EXTRACT__WORKERS", "NORMALIZE__WORKERS", "LOAD__WORKERS",
   "DATA_WRITER__BUFFER_MAX_ITEMS", "DATA_WRITER__FILE_MAX_ITEMS",
   "DATA_WRITER__DISABLE_COMPRESSION"]

/-- Effect of importing src/pipeline.py on the process environment: the six
module-level `os.environ[...] = ...` assignments (lines 10-15), applied to
the ambient environment. -/
def applyPerfConfig (env : String → Option String) :
    String → Option String := fun key =>
  if key = "EXTRACT__WORKERS" then some "4"
  else if key = "NORMALIZE__WORKERS" then some "4"
  else if key = "LOAD__WORKERS" then some "4"
  else if key = "DATA_WRITER__BUFFER_MAX_ITEMS" then some "10000"
  else if key = "DATA_WRITER__FILE_MAX_ITEMS" then some "50000"
  else if key = "DATA_WRITER__DISABLE_COMPRESSION" then some "False"
  else env key

/-! ### Basic loop lemmas -/

theorem fetchedPages_stop (resp : Nat → Response) (n s : Nat)
    (h : stopsAt resp s) : fetchedPages resp (n + 1) s = [s] := by
  rcases h with h | h
  · simp [fetchedPages, h]
  · by_cases h1 : (resp s).data.isEmpty <;> simp [fetchedPages, h1, h]

theorem fetchedPages_go (resp : Nat → Response) (n s : Nat)
    (h : ¬ stopsAt resp s) :
    fetchedPages resp (n + 1) s = s :: fetchedPages resp n (s + 1) := by
  rw [stopsAt, not_or] at h
  obtain ⟨h1, h2⟩ := h
  simp only [Bool.not_eq_true] at h1
  simp [fetchedPages, h1, h2]

theorem self_mem_fetchedPages (resp : Nat → Response) (n s : Nat) :
    s ∈ fetchedPages resp (n + 1) s := by
  by_cases h : stopsAt resp s
  · rw [fetchedPages_stop resp n s h]; exact List.mem_singleton.mpr rfl
  · rw [fetchedPages_go resp n s h]; exact List.mem_cons_self s _

/-- The loop visits exactly the consecutive pages from `s` up to the first
stopping page `k`, provided the fuel reaches it. -/
theorem fetchedPages_eq_range' (resp : Nat → Response) :
    ∀ fuel s k : Nat, s ≤ k → stopsAt resp k →
      (∀ p, s ≤ p → p < k → ¬ stopsAt resp p) → k < s + fuel →
      fetchedPages resp fuel s = List.range' s (k + 1 - s) := by
  intro fuel
  induction fuel with
  | zero => intro s k hsk _ _ hlt; omega
  | succ n ih =>
    intro s k hsk hstop hmin hlt
    by_cases hs : stopsAt resp s
    · have hks : s = k := by
        by_contra hne
        exact hmin s le_rfl (lt_of_le_of_ne hsk hne) hs
      subst hks
      rw [fetchedPages_stop resp n s hs]
      have : s + 1 - s = 1 := by omega
      rw [this, List.range'_succ]
      simp
    · have hsk' : s < k := by
        rcases lt_or_eq_of_le hsk with h | h
        · exact h
        · exact absurd (h ▸ hstop) hs
      rw [fetchedPages_go resp n s hs]
      rw [ih (s + 1) k hsk' hstop (fun p hp1 hp2 => hmin p (by omega) hp2)
        (by omega)]
      have h1 : k + 1 - s = (k + 1 - (s + 1)) + 1 := by omega
      rw [h1, List.range'_succ]

/-- The optimized extractor's yields are exactly the data of the fetched
pages, in page order, with the (at most one, final) empty page dropped. -/
theorem extractOptimized_eq (resp : Nat → Response) :
    ∀ fuel s, extractOptimized resp fuel s =
      ((fetchedPages resp fuel s).map (fun p => (resp p).data)).filter
        (fun l => !l.isEmpty) := by
  intro fuel
  induction fuel with
  | zero => intro s; rfl
  | succ n ih =>
    intro s
    by_cases h1 : (resp s).data.isEmpty
    · simp [extractOptimized, fetchedPages, h1]
    · by_cases h2 : s + 1 > (resp s).totalPages
      · simp [extractOptimized, fetchedPages, h1, h2]
      · simp only [extractOptimized, fetchedPages, h1, if_false, h2,
          ite_false, if_neg (by omega : ¬ s + 1 > (resp s).totalPages)]
        simp [h1, ih]

/-- Flattening the naive extractor's loop is definitionally the record
stream of the fetched pages. -/
theorem extractNaive_eq_flatMap (resp : Nat → Response) :
    ∀ fuel s, extractNaive resp fuel s =
      (fetchedPages resp fuel s).flatMap (fun p => (resp p).data) := by
  intro fuel
  induction fuel with
  | zero => intro s; rfl
  | succ n ih =>
    intro s
    by_cases h1 : (resp s).data.isEmpty
    · rw [List.isEmpty_iff] at h1
      simp [extractNaive, fetchedPages, h1]
    · by_cases h2 : s + 1 > (resp s).totalPages
      · simp [extractNaive, fetchedPages, h1, h2]
      · simp [extractNaive, fetchedPages, h1, h2, ih]

theorem flatten_extractOptimized (resp : Nat → Response) :
    ∀ fuel s, (extractOptimized resp fuel s).flatten =
      (fetchedPages resp fuel s).flatMap (fun p => (resp p).data) := by
  intro fuel
  induction fuel with
  | zero => intro s; rfl
  | succ n ih =>
    intro s
    by_cases h1 : (resp s).data.isEmpty
    · rw [List.isEmpty_iff] at h1
      simp [extractOptimized, fetchedPages, h1]
    · by_cases h2 : s + 1 > (resp s).totalPages
      · simp [extractOptimized, fetchedPages, h1, h2]
      · simp [extractOptimized, fetchedPages, h1, h2, ih]

theorem networkCalls_eq_length (resp : Nat → Response) :
    ∀ fuel s, networkCalls resp fuel s = (fetchedPages resp fuel s).length := by
  intro fuel
  induction fuel with
  | zero => intro s; rfl
  | succ n ih =>
    intro s
    by_cases h1 : (resp s).data.isEmpty
    · simp [networkCalls, fetchedPages, h1]
    · by_cases h2 : s + 1 > (resp s).totalPages
      · simp [networkCalls, fetchedPages, h1, h2]
      · simp [networkCalls, fetchedPages, h1, h2, ih, Nat.add_comm]

/-- The whole extraction depends only on the responses of the pages the
loop actually fetches. -/
theorem extract_congr (resp1 resp2 : Nat → Response) :
    ∀ fuel s, (∀ p ∈ fetchedPages resp1 fuel s, resp1 p = resp2 p) →
      fetchedPages resp1 fuel s = fetchedPages resp2 fuel s ∧
      extractOptimized resp1 fuel s = extractOptimized resp2 fuel s ∧
      extractNaive resp1 fuel s = extractNaive resp2 fuel s := by
  intro fuel
  induction fuel with
  | zero => intro s _; exact ⟨rfl, rfl, rfl⟩
  | succ n ih =>
    intro s h
    have hs : resp1 s = resp2 s := h s (self_mem_fetchedPages resp1 n s)
    by_cases h1 : (resp1 s).data.isEmpty
    · refine ⟨?_, ?_, ?_⟩ <;>
        simp [fetchedPages, extractOptimized, extractNaive, h1, ← hs]
    · by_cases h2 : s + 1 > (resp1 s).totalPages
      · refine ⟨?_, ?_, ?_⟩ <;>
          simp [fetchedPages, extractOptimized, extractNaive, h1, h2, ← hs]
      · have hmem : ∀ p ∈ fetchedPages resp1 n (s + 1), resp1 p = resp2 p := by
          intro p hp
          refine h p ?_
          rw [fetchedPages_go resp1 n s (by rw [stopsAt, not_or]; exact
            ⟨by simpa using h1, h2⟩)]
          exact List.mem_cons_of_mem s hp
        obtain ⟨e1, e2, e3⟩ := ih (s + 1) hmem
        refine ⟨?_, ?_, ?_⟩ <;>
          simp [fetchedPages, extractOptimized, extractNaive, h1, h2, ← hs,
            e1, e2, e3]

/-! ### The synthetic resource of spec section 8 -/

theorem mem_range'_one {m n : Nat} : m ∈ List.range' 1 n ↔ 1 ≤ m ∧ m ≤ n := by
  rw [List.mem_range']
  constructor
  · rintro ⟨i, hi, rfl⟩; omega
  · intro h; exact ⟨m - 1, by omega, by omega⟩

theorem sum_map_of_const (l : List Nat) (f : Nat → Nat) (c : Nat)
    (h : ∀ x ∈ l, f x = c) : (l.map f).sum = l.length * c := by
  induction l with
  | nil => simp
  | cons a t ih =>
    rw [List.map_cons, List.sum_cons, h a (List.mem_cons_self a t),
      ih (fun x hx => h x (List.mem_cons_of_mem a hx))]
    rw [List.length_cons, Nat.succ_mul, Nat.add_comm]

theorem ceil_div_P (K P M : Nat) (hM : M < P) :
    (K * P + M + (P - 1)) / P = K + (if M = 0 then 0 else 1) := by
  have hP : 0 < P := lt_of_le_of_lt (Nat.zero_le M) hM
  have h1 : K * P + M + (P - 1) = P * K + (M + (P - 1)) := by
    rw [Nat.mul_comm K P, Nat.add_assoc]
  rw [h1, Nat.mul_add_div hP]
  congr 1
  by_cases hM0 : M = 0
  · subst hM0
    simp [Nat.div_eq_of_lt (by omega : P - 1 < P)]
  · have h2 : (M + (P - 1)) / P = 1 :=
      Nat.div_eq_of_lt_le (by omega) (by omega)
    simp [hM0, h2]

theorem synthetic_data_of_le (K P M p : Nat) (h2 : p ≤ K) :
    (syntheticResp K P M p).data =
      (List.range P).map (fun i => (p - 1) * P + i) := by
  simp [syntheticResp, h2]

theorem synthetic_data_last (K P M : Nat) :
    (syntheticResp K P M (K + 1)).data =
      (List.range M).map (fun i => K * P + i) := by
  simp [syntheticResp, Nat.not_succ_le_self]

theorem synthetic_totalPages (K P M p : Nat) (h : p ≤ K + 1) :
    (syntheticResp K P M p).totalPages = K + (if M = 0 then 0 else 1) := by
  by_cases h2 : p ≤ K
  · simp [syntheticResp, h2, Response.totalPages]
  · have hp : p = K + 1 := by omega
    subst hp
    simp [syntheticResp, Nat.not_succ_le_self, Response.totalPages]

theorem synthetic_not_stop (K P M p : Nat) (hP : 0 < P) (_h1 : 1 ≤ p)
    (h2 : p ≤ K) (h3 : p + 1 ≤ K + (if M = 0 then 0 else 1)) :
    ¬ stopsAt (syntheticResp K P M) p := by
  rw [stopsAt, not_or]
  constructor
  · rw [synthetic_data_of_le K P M p h2]
    simp [List.isEmpty_iff, List.range_eq_nil]
    omega
  · rw [synthetic_totalPages K P M p (by omega)]
    omega

/-- Page-fetch trace on the synthetic resource: `K+1` pages when the
partial page is non-empty, `max K 1` pages when it is empty. -/
theorem synthetic_fetchedPages (K P M fuel : Nat) (hM : M < P)
    (hfuel : K + 1 ≤ fuel) :
    fetchedPages (syntheticResp K P M) fuel 1 =
      List.range' 1 (if M = 0 then max K 1 else K + 1) := by
  have hP : 0 < P := lt_of_le_of_lt (Nat.zero_le M) hM
  by_cases hM0 : M = 0
  · subst hM0
    by_cases hK : K = 0
    · subst hK
      rw [fetchedPages_eq_range' (syntheticResp 0 P 0) fuel 1 1 le_rfl
        (Or.inl (by rw [synthetic_data_last 0 P 0]; simp))
        (fun p hp1 hp2 => absurd (lt_of_le_of_lt hp1 hp2) (by omega))
        (by omega)]
      simp
    · rw [fetchedPages_eq_range' (syntheticResp K P 0) fuel 1 K (by omega)
        (Or.inr (by rw [synthetic_totalPages K P 0 K (by omega)]; simp))
        (fun p hp1 hp2 =>
          synthetic_not_stop K P 0 p hP hp1 (by omega) (by simp; omega))
        (by omega)]
      simp
      omega
  · rw [fetchedPages_eq_range' (syntheticResp K P M) fuel 1 (K + 1)
      (by omega)
      (Or.inr (by rw [synthetic_totalPages K P M (K + 1) le_rfl]; simp [hM0]))
      (fun p hp1 hp2 =>
        synthetic_not_stop K P M p hP hp1 (by omega) (by simp [hM0]; omega))
      (by omega)]
    simp [hM0]

theorem synthetic_full_lengths (K P M : Nat) :
    ∀ p ∈ List.range' 1 K, ((syntheticResp K P M p).data).length = P := by
  intro p hp
  rw [mem_range'_one] at hp
  rw [synthetic_data_of_le K P M p hp.2]
  simp

/-- The optimized extractor's batch list on the synthetic resource is the
data of the non-empty pages, in page order. -/
theorem synthetic_batches (K P M fuel : Nat) (hM : M < P)
    (hfuel : K + 1 ≤ fuel) :
    extractOptimized (syntheticResp K P M) fuel 1 =
      (List.range' 1 (if M = 0 then K else K + 1)).map
        (fun p => (syntheticResp K P M p).data) := by
  have hP : 0 < P := lt_of_le_of_lt (Nat.zero_le M) hM
  rw [extractOptimized_eq, synthetic_fetchedPages K P M fuel hM hfuel]
  by_cases hM0 : M = 0
  · subst hM0
    by_cases hK : K = 0
    · subst hK
      simp only [max_self, Nat.zero_max, if_pos rfl]
      have h1 : (syntheticResp 0 P 0 1).data = [] := by
        rw [synthetic_data_last 0 P 0]; simp
      simp [List.range'_succ, h1]
    · have hmax : max K 1 = K := by omega
      simp only [if_pos rfl, hmax]
      apply List.filter_eq_self.mpr
      intro l hl
      rw [List.mem_map] at hl
      obtain ⟨p, hp, rfl⟩ := hl
      rw [mem_range'_one] at hp
      rw [synthetic_data_of_le K P 0 p hp.2]
      simp [List.isEmpty_iff, List.range_eq_nil]
      omega
  · simp only [if_neg hM0]
    apply List.filter_eq_self.mpr
    intro l hl
    rw [List.mem_map] at hl
    obtain ⟨p, hp, rfl⟩ := hl
    rw [mem_range'_one] at hp
    by_cases hpK : p ≤ K
    · rw [synthetic_data_of_le K P M p hpK]
      simp [List.isEmpty_iff, List.range_eq_nil]
      omega
    · have hp1 : p = K + 1 := by omega
      subst hp1
      rw [synthetic_data_last K P M]
      simp [List.isEmpty_iff, List.range_eq_nil]
      omega

theorem synthetic_batch_count (K P M fuel : Nat) (hM : M < P)
    (hfuel : K + 1 ≤ fuel) :
    (extractOptimized (syntheticResp K P M) fuel 1).length =
      (K * P + M + (P - 1)) / P := by
  rw [synthetic_batches K P M fuel hM hfuel, ceil_div_P K P M hM]
  rw [List.length_map, List.length_range']
  by_cases hM0 : M = 0 <;> simp [hM0]

theorem synthetic_record_count (K P M fuel : Nat) (hM : M < P)
    (hfuel : K + 1 ≤ fuel) :
    (extractOptimized (syntheticResp K P M) fuel 1).flatten.length =
      K * P + M := by
  rw [synthetic_batches K P M fuel hM hfuel]
  by_cases hM0 : M = 0
  · rw [if_pos hM0, List.length_flatten, List.map_map]
    simp only [Function.comp_def]
    rw [sum_map_of_const _ _ P (fun p hp => synthetic_full_lengths K P M p hp)]
    rw [List.length_range']
    omega
  · rw [if_neg hM0, List.range'_concat, List.map_append, List.flatten_append,
      List.length_append, List.length_flatten, List.map_map]
    simp only [Function.comp_def]
    rw [sum_map_of_const _ _ P (fun p hp => synthetic_full_lengths K P M p hp)]
    rw [List.length_range']
    have h1 : 1 + 1 * K = K + 1 := by omega
    rw [h1]
    simp [synthetic_data_last K P M]

/-! ### Cursor tracker lemmas (spec-modelled component) -/

theorem observeRun_filter {R V : Type} [LinearOrder V] (keep : R → Bool)
    (cursorOf : R → Option V) :
    ∀ (records : List R) (t : IncrementalCursorTracker V),
      IncrementalCursorTracker.observeRun keep cursorOf t records =
        IncrementalCursorTracker.observeRun keep cursorOf t
          (records.filter keep) := by
  intro records
  induction records with
  | nil => intro t; rfl
  | cons r rs ih =>
    intro t
    by_cases h : keep r
    · rw [List.filter_cons, if_pos h]
      rw [IncrementalCursorTracker.observeRun, List.foldl_cons,
        IncrementalCursorTracker.observeRun, List.foldl_cons]
      exact ih _
    · rw [List.filter_cons, if_neg (by simpa using h)]
      rw [IncrementalCursorTracker.observeRun, List.foldl_cons]
      rw [IncrementalCursorTracker.observeRecord, if_neg h]
      exact ih t

theorem observeRun_fields {R V : Type} [LinearOrder V] (keep : R → Bool)
    (cursorOf : R → Option V) :
    ∀ (records : List R) (t : IncrementalCursorTracker V),
      (IncrementalCursorTracker.observeRun keep cursorOf t records).runningMax
          = (keptCursorValues keep cursorOf records).foldl optMax t.runningMax
        ∧ (IncrementalCursorTracker.observeRun keep cursorOf t
            records).lastPersisted = t.lastPersisted := by
  intro records
  induction records with
  | nil => intro t; exact ⟨rfl, rfl⟩
  | cons r rs ih =>
    intro t
    rw [IncrementalCursorTracker.observeRun, List.foldl_cons]
    by_cases h : keep r
    · rcases hc : cursorOf r with _ | v
      · have hkept : keptCursorValues keep cursorOf (r :: rs) =
            keptCursorValues keep cursorOf rs := by
          simp [keptCursorValues, List.filter_cons, h, List.filterMap_cons, hc]
        rw [hkept]
        have hrec : IncrementalCursorTracker.observeRecord keep cursorOf t r
            = t := by
          rw [IncrementalCursorTracker.observeRecord, if_pos h, hc]
        rw [hrec]
        exact ih t
      · have hkept : keptCursorValues keep cursorOf (r :: rs) =
            v :: keptCursorValues keep cursorOf rs := by
          simp [keptCursorValues, List.filter_cons, h, List.filterMap_cons, hc]
        rw [hkept, List.foldl_cons]
        have hrec : IncrementalCursorTracker.observeRecord keep cursorOf t r
            = t.observe v := by
          rw [IncrementalCursorTracker.observeRecord, if_pos h, hc]
        rw [hrec]
        exact ih (t.observe v)
    · have hkept : keptCursorValues keep cursorOf (r :: rs) =
          keptCursorValues keep cursorOf rs := by
        simp [keptCursorValues, List.filter_cons, h]
      rw [hkept]
      have hrec : IncrementalCursorTracker.observeRecord keep cursorOf t r
          = t := by
        rw [IncrementalCursorTracker.observeRecord, if_neg h]
      rw [hrec]
      exact ih t

theorem foldl_optMax_some {V : Type} [LinearOrder V] :
    ∀ (vs : List V) (a : V),
      ∃ m, vs.foldl optMax (some a) = some m ∧ (m = a ∨ m ∈ vs) ∧ a ≤ m ∧
        ∀ v ∈ vs, v ≤ m := by
  intro vs
  induction vs with
  | nil => intro a; exact ⟨a, rfl, Or.inl rfl, le_rfl, by simp⟩
  | cons v vs ih =>
    intro a
    obtain ⟨m, hm, hmem, hle, hall⟩ := ih (max a v)
    refine ⟨m, ?_, ?_, ?_, ?_⟩
    · rw [List.foldl_cons]
      rw [show optMax (some a) v = some (max a v) from rfl]
      exact hm
    · rcases hmem with h | h
      · rcases max_choice a v with hc | hc
        · exact Or.inl (h.trans hc)
        · exact Or.inr (by rw [h, hc]; exact List.mem_cons_self v vs)
      · exact Or.inr (List.mem_cons_of_mem v h)
    · exact (le_max_left a v).trans hle
    · intro x hx
      rcases List.mem_cons.mp hx with rfl | hx
      · exact (le_max_right a x).trans hle
      · exact hall x hx

theorem foldl_optMax_none {V : Type} [LinearOrder V] (v : V) (vs : List V) :
    ∃ m, (v :: vs).foldl optMax none = some m ∧ m ∈ v :: vs ∧
      ∀ x ∈ v :: vs, x ≤ m := by
  obtain ⟨m, hm, hmem, hle, hall⟩ := foldl_optMax_some vs v
  refine ⟨m, ?_, ?_, ?_⟩
  · rw [List.foldl_cons]
    rw [show optMax none v = some v from rfl]
    exact hm
  · rcases hmem with h | h
    · exact h ▸ List.mem_cons_self v vs
    · exact List.mem_cons_of_mem v h
  · intro x hx
    rcases List.mem_cons.mp hx with rfl | hx
    · exact hle
    · exact hall x hx

/-! ### Claim theorems -/

/-- C1: for every resource extraction, the pagination loop starts at page 1
and increments the page number by exactly one per fetch, stopping exactly
at the first page where the fetched record set is empty or the next page
number exceeds the declared total-pages (either condition alone stops it):
the fetched pages are precisely `1, 2, ..., k` for the first such page
`k`. -/
theorem pagination_starts_at_one_and_stops_at_first_stop
    (resp : Nat → Response) (fuel k : Nat) (hk : 1 ≤ k)
    (hstop : stopsAt resp k)
    (hmin : ∀ p, 1 ≤ p → p < k → ¬ stopsAt resp p)
    (hfuel : k ≤ fuel) :
    fetchedPages resp fuel 1 = List.range' 1 k := by
  have h := fetchedPages_eq_range' resp fuel 1 k hk hstop hmin (by omega)
  simpa using h

theorem pagination_starts_at_one_and_stops_at_first_stop_witness :
    fetchedPages resp0 5 1 = List.range' 1 2 :=
  pagination_starts_at_one_and_stops_at_first_stop resp0 5 2 (by decide)
    (by decide)
    (fun p hp1 hp2 => by
      have hp : p = 1 := by omega
      subst hp
      decide)
    (by decide)

/-- C2 counterexample: at `K = 0, P = 1, M = 0` (an entirely empty
resource) the claim demands exactly `K = 0` fetched pages, but the
extractor performs one fetch — it must request the first page to discover
that the resource is empty. -/
theorem synthetic_empty_resource_fetches_one_page :
    (fetchedPages (syntheticResp 0 1 0) 5 1).length = 1 ∧ (1 : Nat) ≠ 0 :=
  ⟨by decide, by decide⟩

/-- C2 (amended): on the synthetic resource the extractor fetches exactly
`K+1` pages when `M > 0` and exactly `max K 1` pages when `M = 0` (for an
entirely empty resource, `K = 0 = M`, one fetch of the empty first page is
still performed); it emits `⌈(K·P+M)/P⌉` batches — the code's batch size
is the page size `P` — and the total extracted record count is
`K·P+M`. -/
theorem synthetic_resource_extraction_counts (K P M fuel : Nat)
    (hM : M < P) (hfuel : K + 1 ≤ fuel) :
    (fetchedPages (syntheticResp K P M) fuel 1).length =
        (if M = 0 then max K 1 else K + 1) ∧
    (extractOptimized (syntheticResp K P M) fuel 1).length =
        (K * P + M + (P - 1)) / P ∧
    (extractOptimized (syntheticResp K P M) fuel 1).flatten.length =
        K * P + M := by
  refine ⟨?_, synthetic_batch_count K P M fuel hM hfuel,
    synthetic_record_count K P M fuel hM hfuel⟩
  rw [synthetic_fetchedPages K P M fuel hM hfuel, List.length_range']

theorem synthetic_resource_extraction_counts_witness :
    (fetchedPages (syntheticResp 2 3 1) 4 1).length =
        (if (1 : Nat) = 0 then max 2 1 else 2 + 1) ∧
    (extractOptimized (syntheticResp 2 3 1) 4 1).length =
        (2 * 3 + 1 + (3 - 1)) / 3 ∧
    (extractOptimized (syntheticResp 2 3 1) 4 1).flatten.length =
        2 * 3 + 1 :=
  synthetic_resource_extraction_counts 2 3 1 4 (by decide) (by decide)

/-- C3: the batches emitted for a resource are exactly the data of the
non-empty fetched pages, one batch per page in page order (so a final
partial page is still emitted); concatenating them, in emission order,
yields exactly the record sequence of the fetched pages with no record
duplicated, dropped, or reordered — and it is the same sequence the naive
extractor yields (the code applies no record filter, so every record is
kept). -/
theorem batches_concat_exact (resp : Nat → Response) (fuel page : Nat) :
    extractOptimized resp fuel page =
      ((fetchedPages resp fuel page).map (fun p => (resp p).data)).filter
        (fun l => !l.isEmpty) ∧
    (extractOptimized resp fuel page).flatten =
      (fetchedPages resp fuel page).flatMap (fun p => (resp p).data) ∧
    extractNaive resp fuel page =
      (fetchedPages resp fuel page).flatMap (fun p => (resp p).data) :=
  ⟨extractOptimized_eq resp fuel page,
    flatten_extractOptimized resp fuel page,
    extractNaive_eq_flatMap resp fuel page⟩

/-- C4: over the same response data, flattening the optimized extractor's
per-page yields, in order, equals the naive extractor's per-record yield
sequence. -/
theorem optimized_refines_naive (resp : Nat → Response) (fuel page : Nat) :
    (extractOptimized resp fuel page).flatten = extractNaive resp fuel page :=
  (flatten_extractOptimized resp fuel page).trans
    (extractNaive_eq_flatMap resp fuel page).symm

/-- C5 counterexample: when the naive pipeline run fails (dlt's
`pipeline.run` raising on a resource-level extraction/load failure),
`run_performance_comparison` propagates the exception to its caller
instead of completing with a per-resource result. -/
theorem run_failure_propagates :
    (run_performance_comparison (Except.error "PipelineStepFailed")
      (Except.ok 0) (Except.ok ())).isOk = false :=
  rfl

/-- C5 (amended): `run_performance_comparison` wraps no handler around its
two `pipeline.run` calls, so a resource-level extraction or load failure
in either run propagates to the caller as an exception; only the final
data-verification step sits inside `try/except`, so its failure is caught
and recorded while the function still completes. -/
theorem run_error_handling (e ve : String) (n o : Nat)
    (optimizedRun : Except String Nat) (verification : Except String Unit) :
    run_performance_comparison (Except.error e) optimizedRun verification
        = Except.error e ∧
    run_performance_comparison (Except.ok n) (Except.error e) verification
        = Except.error e ∧
    run_performance_comparison (Except.ok n) (Except.ok o)
        (Except.error ve) = Except.ok ⟨n, o, some ve⟩ ∧
    run_performance_comparison (Except.ok n) (Except.ok o) (Except.ok ())
        = Except.ok ⟨n, o, none⟩ :=
  ⟨rfl, rfl, rfl, rfl⟩

/-- C6: after a run, the committed lower bound (`currentLowerBound` after
`commit`) equals the maximum cursor value among the records kept by the
filter (whenever some kept record carries a cursor value), and a record
rejected by the filter never affects the tracker at all — in particular it
never raises the lower bound. -/
theorem committed_bound_is_max_of_kept {R V : Type} [LinearOrder V]
    (keep : R → Bool) (cursorOf : R → Option V) (records : List R)
    (lp initial : Option V)
    (h : keptCursorValues keep cursorOf records ≠ []) :
    IncrementalCursorTracker.observeRun keep cursorOf ⟨lp, none⟩ records =
      IncrementalCursorTracker.observeRun keep cursorOf ⟨lp, none⟩
        (records.filter keep) ∧
    ∃ m, (IncrementalCursorTracker.observeRun keep cursorOf ⟨lp, none⟩
            records).commit.currentLowerBound initial = some m ∧
      m ∈ keptCursorValues keep cursorOf records ∧
      ∀ v ∈ keptCursorValues keep cursorOf records, v ≤ m := by
  refine ⟨observeRun_filter keep cursorOf records ⟨lp, none⟩, ?_⟩
  obtain ⟨hmax, _⟩ := observeRun_fields keep cursorOf records ⟨lp, none⟩
  rcases hkv : keptCursorValues keep cursorOf records with _ | ⟨v, vs⟩
  · exact absurd hkv h
  · obtain ⟨m, hm, hmem, hall⟩ := foldl_optMax_none v vs
    have hrm : (IncrementalCursorTracker.observeRun keep cursorOf ⟨lp, none⟩
        records).runningMax = some m := by
      rw [hmax, hkv]
      exact hm
    refine ⟨m, ?_, hmem, hall⟩
    simp only [IncrementalCursorTracker.commit,
      IncrementalCursorTracker.currentLowerBound, hrm]

theorem committed_bound_is_max_of_kept_witness :
    IncrementalCursorTracker.observeRun (fun r => r % 2 == 0)
        (fun r => some r) (⟨none, none⟩ : IncrementalCursorTracker Nat)
        [1, 2, 5, 4] =
      IncrementalCursorTracker.observeRun (fun r => r % 2 == 0)
        (fun r => some r) ⟨none, none⟩
        ([1, 2, 5, 4].filter (fun r => r % 2 == 0)) ∧
    ∃ m, (IncrementalCursorTracker.observeRun (fun r => r % 2 == 0)
            (fun r => some r) (⟨none, none⟩ : IncrementalCursorTracker Nat)
            [1, 2, 5, 4]).commit.currentLowerBound (some 0) = some m ∧
      m ∈ keptCursorValues (fun r => r % 2 == 0) (fun r => some r)
            [1, 2, 5, 4] ∧
      ∀ v ∈ keptCursorValues (fun r => r % 2 == 0) (fun r => some r)
            [1, 2, 5, 4], v ≤ m :=
  committed_bound_is_max_of_kept (fun r => r % 2 == 0) (fun r => some r)
    [1, 2, 5, 4] none (some 0) (by decide)

/-- C7: extraction is deterministic — two runs over response sequences
that agree on every page the first run fetches (in particular two runs
over the same fixed responses) produce identical fetch traces, identical
batch sequences (hence identical batch boundaries), and identical record
sequences; the code applies no filter, so accept/reject decisions are
identical as well (every record accepted). -/
theorem extraction_deterministic (resp1 resp2 : Nat → Response)
    (fuel : Nat) (h : ∀ p ∈ fetchedPages resp1 fuel 1, resp1 p = resp2 p) :
    fetchedPages resp1 fuel 1 = fetchedPages resp2 fuel 1 ∧
    extractOptimized resp1 fuel 1 = extractOptimized resp2 fuel 1 ∧
    extractNaive resp1 fuel 1 = extractNaive resp2 fuel 1 :=
  extract_congr resp1 resp2 fuel 1 h

theorem extraction_deterministic_witness :
    fetchedPages resp0 5 1 = fetchedPages resp0' 5 1 ∧
    extractOptimized resp0 5 1 = extractOptimized resp0' 5 1 ∧
    extractNaive resp0 5 1 = extractNaive resp0' 5 1 :=
  extraction_deterministic resp0 resp0' 5 (by decide)

/-- C8 counterexample: importing the module does not leave ambient
process state unchanged — in an environment where `EXTRACT__WORKERS` is
unset, the module-level assignment sets it to `"4"`. -/
theorem import_mutates_environment :
    applyPerfConfig (fun _ => none) "EXTRACT__WORKERS"
      ≠ (fun _ => (none : Option String)) "EXTRACT__WORKERS" := by
  decide

/-- C8 (amended): each loop iteration performs exactly one outbound
network call, so the number of calls equals the number of fetched pages;
but tuning is not construction-time configuration — importing the module
mutates the ambient environment, setting exactly the six performance keys
to fixed values and leaving every other key unchanged. -/
theorem fetch_one_call_and_env_mutation (resp : Nat → Response)
    (fuel s : Nat) (env : String → Option String) (key : String)
    (h : key ∉ perfConfigKeys) :
    networkCalls resp fuel s = (fetchedPages resp fuel s).length ∧
    applyPerfConfig env key = env key ∧
    applyPerfConfig env "EXTRACT__WORKERS" = some "4" ∧
    applyPerfConfig env "NORMALIZE__WORKERS" = some "4" ∧
    applyPerfConfig env "LOAD__WORKERS" = some "4" ∧
    applyPerfConfig env "DATA_WRITER__BUFFER_MAX_ITEMS" = some "10000" ∧
    applyPerfConfig env "DATA_WRITER__FILE_MAX_ITEMS" = some "50000" ∧
    applyPerfConfig env "DATA_WRITER__DISABLE_COMPRESSION" = some "False" := by
  simp only [perfConfigKeys, List.mem_cons, List.not_mem_nil, or_false,
    not_or] at h
  obtain ⟨h1, h2, h3, h4, h5, h6⟩ := h
  refine ⟨networkCalls_eq_length resp fuel s, ?_, rfl, rfl, rfl, rfl, rfl,
    rfl⟩
  simp [applyPerfConfig, h1, h2, h3, h4, h5, h6]

theorem fetch_one_call_and_env_mutation_witness :
    networkCalls resp0 5 1 = (fetchedPages resp0 5 1).length ∧
    applyPerfConfig (fun _ => none) "HOME" =
      (fun _ => (none : Option String)) "HOME" ∧
    applyPerfConfig (fun _ => none) "EXTRACT__WORKERS" = some "4" ∧
    applyPerfConfig (fun _ => none) "NORMALIZE__WORKERS" = some "4" ∧
    applyPerfConfig (fun _ => none) "LOAD__WORKERS" = some "4" ∧
    applyPerfConfig (fun _ => none) "DATA_WRITER__BUFFER_MAX_ITEMS"
      = some "10000" ∧
    applyPerfConfig (fun _ => none) "DATA_WRITER__FILE_MAX_ITEMS"
      = some "50000" ∧
    applyPerfConfig (fun _ => none) "DATA_WRITER__DISABLE_COMPRESSION"
      = some "False" :=
  fetch_one_call_and_env_mutation resp0 5 1 (fun _ => none) "HOME"
    (by decide)

/-- C9: every batch emitted by the optimized extractor is non-empty — the
empty-record-set check precedes the yield, and an empty page terminates
the loop without yielding. -/
theorem emitted_batches_nonempty (resp : Nat → Response) (fuel page : Nat)
    (b : List Nat) (h : b ∈ extractOptimized resp fuel page) : b ≠ [] := by
  rw [extractOptimized_eq] at h
  have hb := (List.mem_filter.mp h).2
  simpa [List.isEmpty_eq_false] using hb

theorem emitted_batches_nonempty_witness : ([10, 11] : List Nat) ≠ [] :=
  emitted_batches_nonempty resp0 5 1 [10, 11] (by decide)

/-- C10: if the first response has records but no `total_pages` field, the
declared total defaults to 1, so exactly one page is fetched and only that
page's records are emitted, by both extractor variants. -/
theorem missing_total_pages_stops_after_page_one (resp : Nat → Response)
    (fuel : Nat) (hfuel : 1 ≤ fuel) (hdata : (resp 1).data ≠ [])
    (htot : (resp 1).total_pages = none) :
    (resp 1).totalPages = 1 ∧
    fetchedPages resp fuel 1 = [1] ∧
    extractOptimized resp fuel 1 = [(resp 1).data] ∧
    extractNaive resp fuel 1 = (resp 1).data := by
  have ht : (resp 1).totalPages = 1 := by
    rw [Response.totalPages, htot]
    rfl
  obtain ⟨n, rfl⟩ : ∃ n, fuel = n + 1 := ⟨fuel - 1, by omega⟩
  have hne : (resp 1).data.isEmpty = false := by
    rw [List.isEmpty_eq_false]
    exact hdata
  refine ⟨ht, ?_, ?_, ?_⟩
  · exact fetchedPages_stop resp n 1 (Or.inr (by rw [ht]; omega))
  · simp [extractOptimized, hne, ht]
  · simp [extractNaive, hne, ht]

theorem missing_total_pages_stops_after_page_one_witness :
    (respNoTotal 1).totalPages = 1 ∧
    fetchedPages respNoTotal 3 1 = [1] ∧
    extractOptimized respNoTotal 3 1 = [(respNoTotal 1).data] ∧
    extractNaive respNoTotal 3 1 = (respNoTotal 1).data :=
  missing_total_pages_stops_after_page_one respNoTotal 3 (by decide)
    (by decide) (by decide)
